import Mathlib

/-!
Shallow embedding of `tsa_holiday_analysis.py` (TSA passenger analysis):
the holiday-week calculator (`HolidayWeekCalculator`), the date-to-holiday
classifier and the aggregation step of `TSADataProcessor`.

Calendar dates are modelled two ways, exactly as the script uses them:
as year/month/day triples (`Ymd`, what `datetime` constructors receive) and
as proleptic-Gregorian ordinals (`ℤ`, what `timedelta` arithmetic and
comparisons act on; `date.toordinal` with day 1 = 0001-01-01, a Monday).
Python's `%` and `//` on ints with a positive divisor coincide with `ℤ`'s
`%` and `/` here (both Euclidean, remainder nonnegative).

Fallible Python code (a `datetime(...)` constructor that can raise
`ValueError`, and functions that call it) is embedded with `Except String`;
a Python function that can return `None` yields an `Option`.
-/

namespace TSA

/-- Gregorian leap-year test, as used by `datetime`. -/
def isLeap (y : ℤ) : Bool := (y % 4 == 0 && y % 100 != 0) || y % 400 == 0

/-- Length of month `m` of year `y` (`datetime`'s days-in-month table). -/
def daysInMonth (y m : ℤ) : ℤ :=
  if m = 2 then (if isLeap y then 29 else 28)
  else if m = 4 ∨ m = 6 ∨ m = 9 ∨ m = 11 then 30
  else 31

/-- Days of year `y` strictly before the first of month `m`
(the cumulative table used by `datetime`, with the leap adjustment). -/
def daysBeforeMonth (y m : ℤ) : ℤ :=
  (if m = 1 then 0 else if m = 2 then 31 else if m = 3 then 59
   else if m = 4 then 90 else if m = 5 then 120 else if m = 6 then 151
   else if m = 7 then 181 else if m = 8 then 212 else if m = 9 then 243
   else if m = 10 then 273 else if m = 11 then 304 else 334)
  + (if 2 < m ∧ isLeap y then 1 else 0)

/-- Days strictly before January 1 of year `y` (`datetime`'s days-before-year). -/
def daysBeforeYear (y : ℤ) : ℤ :=
  365 * (y - 1) + (y - 1) / 4 - (y - 1) / 100 + (y - 1) / 400

/-- A calendar date as a year/month/day triple. -/
structure Ymd where
  year : ℤ
  month : ℤ
  day : ℤ
deriving DecidableEq

/-- `date.toordinal()`: proleptic-Gregorian ordinal; day 1 is 0001-01-01. -/
def toOrdinal (d : Ymd) : ℤ :=
  daysBeforeYear d.year + daysBeforeMonth d.year d.month + d.day

/-- `date.weekday()` computed from the ordinal: 0 = Monday … 6 = Sunday. -/
def weekday (o : ℤ) : ℤ := (o + 6) % 7

/-- The `datetime(year, month, day)` constructor: raises `ValueError`
(modelled as `.error`) exactly when the month or day is out of range. -/
def mkDate (y m d : ℤ) : Except String Ymd :=
  if 1 ≤ m ∧ m ≤ 12 ∧ 1 ≤ d ∧ d ≤ daysInMonth y m then .ok ⟨y, m, d⟩
  else .error "ValueError"

/-- `HolidayWeekCalculator.get_nth_weekday` (lines 25-39): first day of the
month, days ahead to the first occurrence of `wd`, plus `n - 1` weeks.
Total: the Python code raises no error for any `n`. -/
def get_nth_weekday (year month n wd : ℤ) : ℤ :=
  let first_day := toOrdinal ⟨year, month, 1⟩
  let days_ahead := (wd - weekday first_day) % 7
  let first_occurrence := first_day + days_ahead
  first_occurrence + 7 * (n - 1)

/-- `HolidayWeekCalculator.get_last_weekday` (lines 41-54). -/
def get_last_weekday (year month wd : ℤ) : ℤ :=
  let first_next_month :=
    if month = 12 then toOrdinal ⟨year + 1, 1, 1⟩ else toOrdinal ⟨year, month + 1, 1⟩
  let last_day := first_next_month - 1
  last_day - (weekday last_day - wd) % 7

/-- `dateutil.easter.easter` with the default Western (Gregorian) method,
as called at line 72 of the script; transcribed from the anonymous
Gregorian computus that library implements. -/
def easter (y : ℤ) : ℤ :=
  let g := y % 19
  let c := y / 100
  let h := (c - c / 4 - (8 * c + 13) / 25 + 19 * g + 15) % 30
  let i := h - (h / 28) * (1 - (h / 28) * (29 / (h + 1)) * ((21 - g) / 11))
  let j := (y + y / 4 + i + 2 - c + c / 4) % 7
  let p := i - j
  let d := 1 + (p + 27 + (p + 6) / 40) % 31
  let m := 3 + (p + 26) / 30
  toOrdinal ⟨y, m, d⟩

/-- `HolidayWeekCalculator.get_week_bounds` (lines 82-97): shift the anchor
by `week_offset` weeks, back up to that week's Monday, Sunday is 6 later. -/
def get_week_bounds (anchor_date : ℤ) (week_offset : ℤ) : ℤ × ℤ :=
  let a := anchor_date + 7 * week_offset
  let monday := a - weekday a
  (monday, monday + 6)

/-- The anchor specification of a configured holiday: a fixed month/day
pair (parsed from the `anchor_date` string) or a relative-rule identifier
string, dispatched on by `get_anchor_date`. -/
inductive AnchorSpec where
  | fixed (month day : ℤ)
  | relative (rule : String)
deriving DecidableEq

/-- One configured holiday definition (an entry of `holiday_weeks` in
`holiday_config.yaml`), with the defaults the script applies via `.get`. -/
structure HolidayDefinition where
  name : String
  anchor : AnchorSpec
  week_offset : ℤ
  priority : ℤ
  spans_year_boundary : Bool
deriving DecidableEq

/-- `HolidayWeekCalculator.get_anchor_date` (lines 56-80): fixed anchors go
through the fallible `datetime` constructor; relative anchors dispatch on
the rule string, and an unrecognized rule falls off the `elif` chain,
returning `None`. -/
def get_anchor_date (year : ℤ) (hw : HolidayDefinition) : Except String (Option ℤ) :=
  match hw.anchor with
  | .fixed month day =>
    match mkDate year month day with
    | .error e => .error e
    | .ok d => .ok (some (toOrdinal d))
  | .relative rule =>
    if rule = "third_monday_january" then .ok (some (get_nth_weekday year 1 3 0))
    else if rule = "third_monday_february" then .ok (some (get_nth_weekday year 2 3 0))
    else if rule = "easter" then .ok (some (easter year))
    else if rule = "last_monday_may" then .ok (some (get_last_weekday year 5 0))
    else if rule = "first_monday_september" then .ok (some (get_nth_weekday year 9 1 0))
    else if rule = "second_monday_october" then .ok (some (get_nth_weekday year 10 2 0))
    else if rule = "fourth_thursday_november" then .ok (some (get_nth_weekday year 11 4 3))
    else .ok none

/-- One derived holiday-week instance, as appended at lines 111-118. -/
structure HolidayWeekInstance where
  name : String
  year : ℤ
  monday : ℤ
  sunday : ℤ
  priority : ℤ
  spans_year_boundary : Bool
deriving DecidableEq

/-- `HolidayWeekCalculator.get_all_holiday_weeks` (lines 99-120): the loop
over the configured definitions, skipping those whose anchor comes back
`None` and propagating any exception the anchor resolution raises. -/
def get_all_holiday_weeks (defs : List HolidayDefinition) (year : ℤ) :
    Except String (List HolidayWeekInstance) :=
  match defs with
  | [] => .ok []
  | hw :: rest =>
    match get_anchor_date year hw with
    | .error e => .error e
    | .ok anchor =>
      match get_all_holiday_weeks rest year with
      | .error e => .error e
      | .ok tail =>
        match anchor with
        | none => .ok tail
        | some a =>
          .ok (⟨hw.name, year, (get_week_bounds a hw.week_offset).1,
                (get_week_bounds a hw.week_offset).2, hw.priority,
                hw.spans_year_boundary⟩ :: tail)

/-- The inclusive interval test `monday <= date <= sunday` of lines 150/160/168. -/
def containsDate (o : ℤ) (w : HolidayWeekInstance) : Bool :=
  decide (w.monday ≤ o ∧ o ≤ w.sunday)

/-- `TSADataProcessor.assign_holiday_week` (lines 133-171): first match in
the date's own year; otherwise, for December (resp. January) dates, first
boundary-spanning match in the next (resp. previous) year's catalog. -/
def assign_holiday_week (defs : List HolidayDefinition) (dt : Ymd) :
    Except String (Option String) :=
  let o := toOrdinal dt
  match get_all_holiday_weeks defs dt.year with
  | .error e => .error e
  | .ok weeks =>
    match weeks.find? (containsDate o) with
    | some w => .ok (some w.name)
    | none =>
      if dt.month = 12 then
        match get_all_holiday_weeks defs (dt.year + 1) with
        | .error e => .error e
        | .ok weeks_next =>
          .ok ((weeks_next.find? (fun w => w.spans_year_boundary && containsDate o w)).map
            (fun w => w.name))
      else if dt.month = 1 then
        match get_all_holiday_weeks defs (dt.year - 1) with
        | .error e => .error e
        | .ok weeks_prev =>
          .ok ((weeks_prev.find? (fun w => w.spans_year_boundary && containsDate o w)).map
            (fun w => w.name))
      else .ok none

/-- One raw daily record (columns `date`, `passengers`, `year` of the CSV). -/
structure DailyRecord where
  date : Ymd
  passengers : ℤ
  year : ℤ
deriving DecidableEq

/-- A daily record together with its `holiday_week` label (line 175). -/
structure ClassifiedRecord where
  date : Ymd
  passengers : ℤ
  year : ℤ
  holiday_week : Option String
deriving DecidableEq

/-- One row of the `weekly_avg` table (lines 181-187). -/
structure HolidaySummary where
  holiday_week : String
  year : ℤ
  avg_passengers : ℚ
  total_passengers : ℤ
  day_count : ℕ
  week_start : Ymd
  week_end : Ymd
deriving DecidableEq

/-- The row-wise `df.apply(self.assign_holiday_week, axis=1)` of line 175:
labels every record, propagating any exception a row raises. -/
def classifyAll (defs : List HolidayDefinition) :
    List DailyRecord → Except String (List ClassifiedRecord)
  | [] => .ok []
  | r :: rest =>
    match assign_holiday_week defs r.date with
    | .error e => .error e
    | .ok h =>
      match classifyAll defs rest with
      | .error e => .error e
      | .ok tail => .ok (⟨r.date, r.passengers, r.year, h⟩ :: tail)

/-- The groupby key `(holiday_week, year)` of line 181 on a kept record. -/
def keyOf (c : ClassifiedRecord) : String × ℤ := (c.holiday_week.getD "", c.year)

/-- Earliest date of a group (`'date': ['min', ...]`, line 183);
dates compare chronologically, i.e. by ordinal. -/
def minDate : List Ymd → Ymd
  | [] => ⟨1, 1, 1⟩
  | d :: rest => rest.foldl (fun a b => if toOrdinal b < toOrdinal a then b else a) d

/-- Latest date of a group (`'date': [..., 'max']`, line 183). -/
def maxDate : List Ymd → Ymd
  | [] => ⟨1, 1, 1⟩
  | d :: rest => rest.foldl (fun a b => if toOrdinal a < toOrdinal b then b else a) d

/-- The filter-and-groupby of lines 178-187: drop unlabelled rows, then one
summary row per distinct `(holiday_week, year)` key, with the group's
passenger mean, sum and count and its min and max date. -/
def aggregate (classified : List ClassifiedRecord) : List HolidaySummary :=
  let kept := classified.filter (fun c => c.holiday_week.isSome)
  let keys := (kept.map keyOf).dedup
  keys.map (fun k =>
    let group := kept.filter (fun c => decide (keyOf c = k))
    { holiday_week := k.1
      year := k.2
      avg_passengers := ((group.map (fun c => (c.passengers : ℚ))).sum) / (group.length : ℚ)
      total_passengers := (group.map (fun c => c.passengers)).sum
      day_count := group.length
      week_start := minDate (group.map (fun c => c.date))
      week_end := maxDate (group.map (fun c => c.date)) })

/-- `TSADataProcessor.process_data` (lines 173-189): classify every record,
then aggregate. -/
def process_data (defs : List HolidayDefinition) (records : List DailyRecord) :
    Except String (List HolidaySummary) :=
  match classifyAll defs records with
  | .error e => .error e
  | .ok classified => .ok (aggregate classified)

/-! Spec-side definitions: independently phrased restatements of the spec's
contracts, to be compared with the code-side functions above, plus the
derived quantities the claim theorems are stated with. -/

/-- The seven relative-rule identifiers recognized at lines 67-80. -/
def recognizedRules : List String :=
  ["third_monday_january", "third_monday_february", "easter", "last_monday_may",
   "first_monday_september", "second_monday_october", "fourth_thursday_november"]

/-- The holiday-week instance a single definition contributes for a year,
when its anchor resolves to a date; `none` when resolution yields no date
or raises. -/
def instOf (year : ℤ) (hw : HolidayDefinition) : Option HolidayWeekInstance :=
  match get_anchor_date year hw with
  | .ok (some a) =>
    some ⟨hw.name, year, (get_week_bounds a hw.week_offset).1,
          (get_week_bounds a hw.week_offset).2, hw.priority, hw.spans_year_boundary⟩
  | _ => none

/-- Spec steps 2-3 of the classifier: restrict a catalog to the instances
flagged `spans_year_boundary`, then take the first one containing `o`. -/
def boundaryMatch (o : ℤ) (weeks : List HolidayWeekInstance) : Option String :=
  ((weeks.filter (fun w => w.spans_year_boundary)).find? (containsDate o)).map
    (fun w => w.name)

/-- The classifier as the spec words it (its four numbered steps): own-year
first match; for December dates the next year's boundary-spanning
instances; for January dates the previous year's; otherwise absent. -/
def classify_spec (defs : List HolidayDefinition) (dt : Ymd) :
    Except String (Option String) :=
  let o := toOrdinal dt
  match get_all_holiday_weeks defs dt.year with
  | .error e => .error e
  | .ok own =>
    match (own.find? (containsDate o)).map (fun w => w.name) with
    | some n => .ok (some n)
    | none =>
      if dt.month = 12 then
        match get_all_holiday_weeks defs (dt.year + 1) with
        | .error e => .error e
        | .ok next => .ok (boundaryMatch o next)
      else if dt.month = 1 then
        match get_all_holiday_weeks defs (dt.year - 1) with
        | .error e => .error e
        | .ok prev => .ok (boundaryMatch o prev)
      else .ok none

/-- Number of occurrences of weekday `wd` within month `m` of year `y`. -/
def numOccurrences (y m wd : ℤ) : ℕ :=
  ((Finset.range (daysInMonth y m).toNat).filter
    (fun (i : ℕ) => weekday (toOrdinal ⟨y, m, 1⟩ + (i : ℤ)) = wd)).card

/-- Two holiday definitions that agree on every field except `priority`. -/
def eqExceptPriority (d₁ d₂ : HolidayDefinition) : Prop :=
  d₁.name = d₂.name ∧ d₁.anchor = d₂.anchor ∧ d₁.week_offset = d₂.week_offset ∧
  d₁.spans_year_boundary = d₂.spans_year_boundary

/-- Two holiday-week instances that agree on every field except `priority`. -/
def weekEqExceptPriority (w₁ w₂ : HolidayWeekInstance) : Prop :=
  w₁.name = w₂.name ∧ w₁.year = w₂.year ∧ w₁.monday = w₂.monday ∧
  w₁.sunday = w₂.sunday ∧ w₁.spans_year_boundary = w₂.spans_year_boundary

/-- Lift a relation to fallible results: both fail identically or both
succeed with related values. -/
def exceptRel (R : α → β → Prop) : Except String α → Except String β → Prop
  | .error e₁, .error e₂ => e₁ = e₂
  | .ok a, .ok b => R a b
  | _, _ => False

instance {ε α : Type} [DecidableEq ε] [DecidableEq α] :
    DecidableEq (Except ε α)
  | .error e₁, .error e₂ => decidable_of_iff (e₁ = e₂) (by simp)
  | .error _, .ok _ => isFalse (by simp)
  | .ok _, .error _ => isFalse (by simp)
  | .ok a, .ok b => decidable_of_iff (a = b) (by simp)

/-- The group of raw records classified to holiday `nm` in year `yr`. -/
def recordsGroup (defs : List HolidayDefinition) (records : List DailyRecord)
    (nm : String) (yr : ℤ) : List DailyRecord :=
  records.filter (fun r =>
    decide (assign_holiday_week defs r.date = .ok (some nm) ∧ r.year = yr))

/-! Claim theorems: week bounds, movable feast, nth weekday. -/

/-- C2: `get_week_bounds(anchor, 0)` returns `(monday, sunday)` with
`monday` a Monday (weekday 0), `monday ≤ anchor`, `anchor - monday < 7`
and `sunday = monday + 6`, so the anchor lies in `[monday, sunday]`; the
function is a total pure function of its arguments. -/
theorem get_week_bounds_zero_correct (a : ℤ) :
    weekday (get_week_bounds a 0).1 = 0 ∧
    (get_week_bounds a 0).1 ≤ a ∧
    a - (get_week_bounds a 0).1 < 7 ∧
    (get_week_bounds a 0).2 = (get_week_bounds a 0).1 + 6 ∧
    a ≤ (get_week_bounds a 0).2 := by
  simp only [get_week_bounds, weekday, true_and, and_true]
  omega

/-- C3: for every anchor and every integer `k`, both components of
`get_week_bounds(anchor, k)` are the components of
`get_week_bounds(anchor, 0)` shifted by exactly `7 * k` days. -/
theorem get_week_bounds_offset_shift (a k : ℤ) :
    get_week_bounds a k =
      ((get_week_bounds a 0).1 + 7 * k, (get_week_bounds a 0).2 + 7 * k) := by
  simp only [get_week_bounds, weekday, Prod.mk.injEq]
  omega

/-- C7 counterexample: the movable-feast resolution for year 2024 does not
return April 21 (April 21 is the 2019 date; the computus gives
March 31, 2024). -/
theorem easter_2024_not_april_21 : ¬ easter 2024 = toOrdinal ⟨2024, 4, 21⟩ := by
  decide

/-- C7 (amended): the movable-feast resolution returns the Western
(Gregorian) ecclesiastical dates: April 4 for 2021, April 9 for 2023 and
March 31 for 2024 (and April 21 for 2019). -/
theorem easter_reference_values :
    easter 2021 = toOrdinal ⟨2021, 4, 4⟩ ∧
    easter 2023 = toOrdinal ⟨2023, 4, 9⟩ ∧
    easter 2024 = toOrdinal ⟨2024, 3, 31⟩ ∧
    easter 2019 = toOrdinal ⟨2019, 4, 21⟩ := by
  decide

/-- C4: at year 2024, month 2, n = 5, weekday 0 (Monday), `n` exceeds the
four Mondays of February 2024, yet `get_nth_weekday` raises no error and
returns March 4, 2024 — a date past the end of the requested month,
contradicting both its own docstring ("the nth occurrence of a weekday in
a given month") and the spec's requirement that it must fail. -/
theorem get_nth_weekday_overflows_month :
    get_nth_weekday 2024 2 5 0 = toOrdinal ⟨2024, 3, 4⟩ ∧
    (numOccurrences 2024 2 0 : ℤ) = 4 ∧
    toOrdinal ⟨2024, 2, 1⟩ + daysInMonth 2024 2 ≤ get_nth_weekday 2024 2 5 0 := by
  decide

/-! Claim theorems: error handling of the catalog build. -/

/-- C5 counterexample: a definition whose relative rule is unrecognized
does not make the catalog build fail with any error — the build succeeds
and silently produces no instance for it. -/
theorem unknown_rule_build_succeeds :
    get_all_holiday_weeks [⟨"Bogus Holiday", .relative "not_a_rule", 0, 0, false⟩] 2024 =
      .ok [] := by
  decide

/-- C5 (amended): for a definition whose relative rule is not among the
seven recognized identifiers, `get_anchor_date` returns `None` without
raising, and the catalog build silently skips the definition — no
`ConfigError` exists in the code and no error is reported. -/
theorem unrecognized_rule_silently_skipped
    (year : ℤ) (d : HolidayDefinition) (rule : String)
    (hanch : d.anchor = .relative rule) (hrule : rule ∉ recognizedRules) :
    get_anchor_date year d = .ok none ∧
    ∀ pre post : List HolidayDefinition,
      get_all_holiday_weeks (pre ++ d :: post) year =
        get_all_holiday_weeks (pre ++ post) year := by
  have h1 : ¬ rule = "third_monday_january" :=
    fun h => hrule (by rw [h]; simp [recognizedRules])
  have h2 : ¬ rule = "third_monday_february" :=
    fun h => hrule (by rw [h]; simp [recognizedRules])
  have h3 : ¬ rule = "easter" :=
    fun h => hrule (by rw [h]; simp [recognizedRules])
  have h4 : ¬ rule = "last_monday_may" :=
    fun h => hrule (by rw [h]; simp [recognizedRules])
  have h5 : ¬ rule = "first_monday_september" :=
    fun h => hrule (by rw [h]; simp [recognizedRules])
  have h6 : ¬ rule = "second_monday_october" :=
    fun h => hrule (by rw [h]; simp [recognizedRules])
  have h7 : ¬ rule = "fourth_thursday_november" :=
    fun h => hrule (by rw [h]; simp [recognizedRules])
  have hanchor : get_anchor_date year d = .ok none := by
    simp [get_anchor_date, hanch, h1, h2, h3, h4, h5, h6, h7]
  refine ⟨hanchor, fun pre post => ?_⟩
  induction pre with
  | nil =>
    cases h : get_all_holiday_weeks post year <;>
      simp [get_all_holiday_weeks, hanchor, h]
  | cons p ps ih =>
    simp only [List.cons_append, get_all_holiday_weeks, List.append_eq]
    rw [ih]

/-- C5 witness. -/
theorem unrecognized_rule_silently_skipped_witness :
    get_anchor_date 2024 ⟨"Bogus Holiday", .relative "not_a_rule", 0, 0, false⟩ =
      .ok none ∧
    get_all_holiday_weeks
        [⟨"Bogus Holiday", .relative "not_a_rule", 0, 0, false⟩,
         ⟨"Thanksgiving", .relative "fourth_thursday_november", 0, 10, false⟩] 2024 =
      get_all_holiday_weeks
        [⟨"Thanksgiving", .relative "fourth_thursday_november", 0, 10, false⟩] 2024 := by
  refine ⟨(unrecognized_rule_silently_skipped 2024 _ "not_a_rule" rfl (by decide)).1, ?_⟩
  exact (unrecognized_rule_silently_skipped 2024
    ⟨"Bogus Holiday", .relative "not_a_rule", 0, 0, false⟩ "not_a_rule" rfl (by decide)).2
    [] [⟨"Thanksgiving", .relative "fourth_thursday_november", 0, 10, false⟩]

/-- C6 counterexample: a fixed definition whose month/day is invalid for
the year (February 30) makes the whole catalog build raise `ValueError`
and abort — it is not skipped with a warning, and the later, perfectly
resolvable definition is lost with it. -/
theorem invalid_fixed_date_aborts_build :
    get_all_holiday_weeks
      [⟨"Bad Fixed", .fixed 2 30, 0, 0, false⟩,
       ⟨"Thanksgiving", .relative "fourth_thursday_november", 0, 10, false⟩] 2024 =
      .error "ValueError" := by
  decide

/-- C6 (amended): the catalog build never aborts on definitions whose
anchor resolution merely returns no date (e.g. an unrecognized rule) —
those are skipped silently, with no warning modelled or emitted — and
whenever no definition's anchor resolution raises, it returns, in
configuration order, exactly one instance per definition whose anchor
resolved; but a fixed definition with a month/day invalid for the year
raises an error that aborts the whole build (see the counterexample). -/
theorem catalog_is_filterMap_when_no_exception
    (year : ℤ) (defs : List HolidayDefinition)
    (h : ∀ d ∈ defs, (get_anchor_date year d).isOk = true) :
    get_all_holiday_weeks defs year = .ok (defs.filterMap (instOf year)) := by
  induction defs with
  | nil => simp [get_all_holiday_weeks]
  | cons hw rest ih =>
    have hd := h hw (List.mem_cons_self hw rest)
    have hrest := ih (fun d hdm => h d (List.mem_cons_of_mem _ hdm))
    cases ha : get_anchor_date year hw with
    | error e => rw [ha] at hd; simp [Except.isOk, Except.toBool] at hd
    | ok anchor =>
      cases anchor with
      | none =>
        simp [get_all_holiday_weeks, ha, hrest, List.filterMap_cons, instOf]
      | some a =>
        simp [get_all_holiday_weeks, ha, hrest, List.filterMap_cons, instOf]

/-- C6 witness. -/
theorem catalog_is_filterMap_when_no_exception_witness :
    (∀ d ∈ [HolidayDefinition.mk "Independence Day" (.fixed 7 4) 0 5 false,
            HolidayDefinition.mk "Bogus Holiday" (.relative "not_a_rule") 0 0 false,
            HolidayDefinition.mk "Thanksgiving" (.relative "fourth_thursday_november") 0 10 false],
        (get_anchor_date 2024 d).isOk = true) ∧
    get_all_holiday_weeks
        [⟨"Independence Day", .fixed 7 4, 0, 5, false⟩,
         ⟨"Bogus Holiday", .relative "not_a_rule", 0, 0, false⟩,
         ⟨"Thanksgiving", .relative "fourth_thursday_november", 0, 10, false⟩] 2024 =
      .ok ([⟨"Independence Day", .fixed 7 4, 0, 5, false⟩,
            ⟨"Bogus Holiday", .relative "not_a_rule", 0, 0, false⟩,
            ⟨"Thanksgiving", .relative "fourth_thursday_november", 0, 10, false⟩].filterMap
        (instOf 2024)) :=
  ⟨by decide, catalog_is_filterMap_when_no_exception 2024 _ (by decide)⟩

/-! Claim theorems: the classifier. -/

/-- Finding the first element of a filtered list is finding the first
element satisfying both predicates, in that order. -/
theorem filter_find?_eq_find?_and {α : Type} (l : List α) (p q : α → Bool) :
    (l.filter p).find? q = l.find? (fun a => p a && q a) := by
  induction l with
  | nil => rfl
  | cons x xs ih =>
    cases hp : p x
    · simp [List.filter_cons, hp, ih, List.find?_cons]
    · cases hq : q x <;> simp [List.filter_cons, hp, hq, ih, List.find?_cons]

/-- C1: the classifier implements exactly the spec's four steps — first
matching instance of the date's own year in configuration order; for
December dates, the first boundary-spanning match of year+1; for January
dates, the first boundary-spanning match of year−1; absent otherwise. -/
theorem assign_holiday_week_refines_spec (defs : List HolidayDefinition) (dt : Ymd) :
    assign_holiday_week defs dt = classify_spec defs dt := by
  cases hres : get_all_holiday_weeks defs dt.year with
  | error e => simp [assign_holiday_week, classify_spec, hres]
  | ok own =>
    cases hf : own.find? (containsDate (toOrdinal dt)) with
    | some w => simp [assign_holiday_week, classify_spec, hres, hf]
    | none =>
      by_cases h12 : dt.month = 12
      · cases hnext : get_all_holiday_weeks defs (dt.year + 1) <;>
          simp [assign_holiday_week, classify_spec, boundaryMatch,
            filter_find?_eq_find?_and, hres, hf, h12, hnext]
      · by_cases h1 : dt.month = 1
        · cases hprev : get_all_holiday_weeks defs (dt.year - 1) <;>
            simp [assign_holiday_week, classify_spec, boundaryMatch,
              filter_find?_eq_find?_and, hres, hf, h12, h1, hprev]
        · simp [assign_holiday_week, classify_spec, hres, hf, h12, h1]

/-- C10: `get_nth_weekday` is total (it is a plain function into ℤ, with
no error case) and returns the first occurrence of the weekday in the
month plus `7 * (n - 1)` days: subtracting `7 * (n - 1)` from the result
lands on the unique day with the requested weekday in the month's first
seven days, and no earlier day of the month has that weekday; when `n`
exceeds the number of occurrences of the weekday in the month, the result
is at or past the first day of the next month instead of an error. -/
theorem get_nth_weekday_first_occurrence_shift (y m n wd : ℤ)
    (hn : 1 ≤ n) (hw0 : 0 ≤ wd) (hw7 : wd < 7) :
    weekday (get_nth_weekday y m n wd - 7 * (n - 1)) = wd ∧
    toOrdinal ⟨y, m, 1⟩ ≤ get_nth_weekday y m n wd - 7 * (n - 1) ∧
    get_nth_weekday y m n wd - 7 * (n - 1) < toOrdinal ⟨y, m, 1⟩ + 7 ∧
    (∀ d : ℤ, toOrdinal ⟨y, m, 1⟩ ≤ d → d < get_nth_weekday y m n wd - 7 * (n - 1) →
      ¬ weekday d = wd) ∧
    ((numOccurrences y m wd : ℤ) < n →
      toOrdinal ⟨y, m, 1⟩ + daysInMonth y m ≤ get_nth_weekday y m n wd) := by
  have hrw : get_nth_weekday y m n wd =
      toOrdinal ⟨y, m, 1⟩ + (wd - weekday (toOrdinal ⟨y, m, 1⟩)) % 7 + 7 * (n - 1) := rfl
  refine ⟨?_, ?_, ?_, ?_, ?_⟩
  · rw [hrw]; simp only [weekday]; omega
  · rw [hrw]; simp only [weekday]; omega
  · rw [hrw]; simp only [weekday]; omega
  · intro d h1 h2
    rw [hrw] at h2
    simp only [weekday] at h2 ⊢
    omega
  · intro hcount
    by_contra hcon
    push_neg at hcon
    rw [numOccurrences] at hcount
    rw [hrw] at hcon
    have hmaps : ∀ i ∈ Finset.range n.toNat,
        ((wd - weekday (toOrdinal ⟨y, m, 1⟩)) % 7).toNat + 7 * i ∈
          (Finset.range (daysInMonth y m).toNat).filter
            (fun (i : ℕ) => weekday (toOrdinal ⟨y, m, 1⟩ + (i : ℤ)) = wd) := by
      intro i hi
      rw [Finset.mem_range] at hi
      rw [Finset.mem_filter, Finset.mem_range]
      constructor
      · simp only [weekday] at hcon ⊢
        omega
      · simp only [weekday]
        push_cast
        omega
    have hinj : Set.InjOn (fun (i : ℕ) =>
        ((wd - weekday (toOrdinal ⟨y, m, 1⟩)) % 7).toNat + 7 * i)
        (Finset.range n.toNat : Set ℕ) := by
      intro a ha b hb hab
      have hab2 : ((wd - weekday (toOrdinal ⟨y, m, 1⟩)) % 7).toNat + 7 * a =
          ((wd - weekday (toOrdinal ⟨y, m, 1⟩)) % 7).toNat + 7 * b := hab
      omega
    have hcard := Finset.card_le_card_of_injOn _ hmaps hinj
    rw [Finset.card_range] at hcard
    omega

/-- C10 witness: February 2024 has four Mondays; asking for the fifth
still produces a date (March 4, 2024), past the end of February. -/
theorem get_nth_weekday_first_occurrence_shift_witness :
    (1 : ℤ) ≤ 5 ∧ (0 : ℤ) ≤ 0 ∧ (0 : ℤ) < 7 ∧ (numOccurrences 2024 2 0 : ℤ) < 5 ∧
    toOrdinal ⟨2024, 2, 1⟩ + daysInMonth 2024 2 ≤ get_nth_weekday 2024 2 5 0 :=
  ⟨by decide, by decide, by decide, by decide,
   (get_nth_weekday_first_occurrence_shift 2024 2 5 0 (by decide) (by decide)
     (by decide)).2.2.2.2 (by decide)⟩

/-! Claim theorems: priority is inert metadata. -/

/-- Anchor resolution reads only the anchor specification. -/
theorem get_anchor_date_eq_of_eqExceptPriority {d₁ d₂ : HolidayDefinition} (y : ℤ)
    (h : eqExceptPriority d₁ d₂) :
    get_anchor_date y d₁ = get_anchor_date y d₂ := by
  simp only [get_anchor_date, h.2.1]

theorem get_all_holiday_weeks_rel {defs₁ defs₂ : List HolidayDefinition} (y : ℤ)
    (h : List.Forall₂ eqExceptPriority defs₁ defs₂) :
    exceptRel (List.Forall₂ weekEqExceptPriority)
      (get_all_holiday_weeks defs₁ y) (get_all_holiday_weeks defs₂ y) := by
  induction h with
  | nil => exact List.Forall₂.nil
  | @cons d₁ d₂ l₁ l₂ h1 h2 ih =>
    have ha := get_anchor_date_eq_of_eqExceptPriority y h1
    simp only [get_all_holiday_weeks]
    rw [ha]
    cases hb : get_anchor_date y d₂ with
    | error e => exact rfl
    | ok anchor =>
      revert ih
      cases ht1 : get_all_holiday_weeks l₁ y <;> cases ht2 : get_all_holiday_weeks l₂ y <;>
        intro ih <;> simp only [exceptRel] at ih ⊢
      · exact ih
      · cases anchor with
        | none => exact ih
        | some a =>
          exact List.Forall₂.cons ⟨h1.1, rfl, by simp only [h1.2.2.1], by simp only [h1.2.2.1], h1.2.2.2⟩ ih

theorem find?_map_name_rel {R : HolidayWeekInstance → HolidayWeekInstance → Prop}
    {l₁ l₂ : List HolidayWeekInstance} (p q : HolidayWeekInstance → Bool)
    (hpq : ∀ w₁ w₂, R w₁ w₂ → p w₁ = q w₂)
    (hname : ∀ w₁ w₂, R w₁ w₂ → w₁.name = w₂.name)
    (h : List.Forall₂ R l₁ l₂) :
    (l₁.find? p).map (fun w => w.name) = (l₂.find? q).map (fun w => w.name) := by
  induction h with
  | nil => rfl
  | @cons a b t₁ t₂ h1 h2 ih =>
    cases hp : p a with
    | true =>
      have hq : q b = true := (hpq a b h1) ▸ hp
      simp [List.find?_cons, hp, hq, hname a b h1]
    | false =>
      have hq : q b = false := (hpq a b h1) ▸ hp
      simp only [List.find?_cons, hp, hq, Bool.false_eq_true, if_false]
      simpa using ih

theorem assign_holiday_week_ignores_priority
    (defs₁ defs₂ : List HolidayDefinition)
    (h : List.Forall₂ eqExceptPriority defs₁ defs₂) (dt : Ymd) :
    assign_holiday_week defs₁ dt = assign_holiday_week defs₂ dt := by
  have hcont : ∀ w₁ w₂, weekEqExceptPriority w₁ w₂ →
      containsDate (toOrdinal dt) w₁ = containsDate (toOrdinal dt) w₂ := by
    intro w₁ w₂ hw
    simp only [containsDate, hw.2.2.1, hw.2.2.2.1]
  have hspan : ∀ w₁ w₂, weekEqExceptPriority w₁ w₂ →
      (w₁.spans_year_boundary && containsDate (toOrdinal dt) w₁) =
      (w₂.spans_year_boundary && containsDate (toOrdinal dt) w₂) := by
    intro w₁ w₂ hw
    rw [hw.2.2.2.2, hcont w₁ w₂ hw]
  have hname : ∀ w₁ w₂ : HolidayWeekInstance, weekEqExceptPriority w₁ w₂ →
      w₁.name = w₂.name := fun _ _ hw => hw.1
  have hown := get_all_holiday_weeks_rel dt.year h
  cases h1 : get_all_holiday_weeks defs₁ dt.year <;>
    cases h2 : get_all_holiday_weeks defs₂ dt.year <;>
      rw [h1, h2] at hown <;> simp only [exceptRel] at hown
  · simp [assign_holiday_week, h1, h2, hown]
  · rename_i l₁ l₂
    have hfind := find?_map_name_rel (containsDate (toOrdinal dt))
      (containsDate (toOrdinal dt)) hcont hname hown
    cases hf1 : l₁.find? (containsDate (toOrdinal dt)) <;>
      cases hf2 : l₂.find? (containsDate (toOrdinal dt)) <;>
        rw [hf1, hf2] at hfind <;> simp at hfind
    · -- both none
      by_cases h12 : dt.month = 12
      · have hnext := get_all_holiday_weeks_rel (dt.year + 1) h
        cases hn1 : get_all_holiday_weeks defs₁ (dt.year + 1) <;>
          cases hn2 : get_all_holiday_weeks defs₂ (dt.year + 1) <;>
            rw [hn1, hn2] at hnext <;> simp only [exceptRel] at hnext
        · simp [assign_holiday_week, h1, h2, hf1, hf2, h12, hn1, hn2, hnext]
        · have hf3 := find?_map_name_rel _ _ hspan hname hnext
          simp [assign_holiday_week, h1, h2, hf1, hf2, h12, hn1, hn2, hf3]
      · by_cases hjan : dt.month = 1
        · have hprev := get_all_holiday_weeks_rel (dt.year - 1) h
          cases hp1 : get_all_holiday_weeks defs₁ (dt.year - 1) <;>
            cases hp2 : get_all_holiday_weeks defs₂ (dt.year - 1) <;>
              rw [hp1, hp2] at hprev <;> simp only [exceptRel] at hprev
          · simp [assign_holiday_week, h1, h2, hf1, hf2, h12, hjan, hp1, hp2, hprev]
          · have hf3 := find?_map_name_rel _ _ hspan hname hprev
            simp [assign_holiday_week, h1, h2, hf1, hf2, h12, hjan, hp1, hp2, hf3]
        · simp [assign_holiday_week, h1, h2, hf1, hf2, h12, hjan]
    · simp [assign_holiday_week, h1, h2, hf1, hf2, hfind]

/-- C9 witness. -/
theorem assign_holiday_week_ignores_priority_witness :
    assign_holiday_week [⟨"Thanksgiving", .relative "fourth_thursday_november", 0, 10, false⟩]
        ⟨2024, 11, 28⟩ =
      assign_holiday_week [⟨"Thanksgiving", .relative "fourth_thursday_november", 0, 99, false⟩]
        ⟨2024, 11, 28⟩ :=
  assign_holiday_week_ignores_priority _ _
    (List.Forall₂.cons ⟨rfl, rfl, rfl, rfl⟩ List.Forall₂.nil) ⟨2024, 11, 28⟩

/-! Claim theorems: aggregation. -/

/-- A classified row is its raw record plus the classifier's label. -/
def classifiedMatches (defs : List HolidayDefinition)
    (r : DailyRecord) (c : ClassifiedRecord) : Prop :=
  c.date = r.date ∧ c.passengers = r.passengers ∧ c.year = r.year ∧
  assign_holiday_week defs r.date = .ok c.holiday_week

/-- Successful row-wise classification pairs each record with its label. -/
theorem classifyAll_forall₂ (defs : List HolidayDefinition)
    (records : List DailyRecord) (cs : List ClassifiedRecord)
    (h : classifyAll defs records = .ok cs) :
    List.Forall₂ (classifiedMatches defs) records cs := by
  induction records generalizing cs with
  | nil =>
    simp only [classifyAll] at h
    injection h with h2
    rw [← h2]
    exact List.Forall₂.nil
  | cons r rest ih =>
    revert h
    unfold classifyAll
    cases ha : assign_holiday_week defs r.date with
    | error e => intro h; exact absurd h (by simp)
    | ok hv =>
      cases hc : classifyAll defs rest with
      | error e => intro h; exact absurd h (by simp)
      | ok tail =>
        intro h
        injection h with h2
        rw [← h2]
        exact List.Forall₂.cons ⟨rfl, rfl, rfl, ha⟩ (ih tail hc)

theorem forall₂_filter_map {α β γ : Type} {R : α → β → Prop}
    {l₁ : List α} {l₂ : List β} (p : α → Bool) (q : β → Bool)
    (f : α → γ) (g : β → γ)
    (hpq : ∀ a b, R a b → p a = q b) (hfg : ∀ a b, R a b → f a = g b)
    (h : List.Forall₂ R l₁ l₂) :
    (l₁.filter p).map f = (l₂.filter q).map g := by
  induction h with
  | nil => rfl
  | @cons a b t₁ t₂ h1 h2 ih =>
    cases hp : p a with
    | true =>
      have hq : q b = true := (hpq a b h1) ▸ hp
      simp [List.filter_cons, hp, hq, hfg a b h1, ih]
    | false =>
      have hq : q b = false := (hpq a b h1) ▸ hp
      simp [List.filter_cons, hp, hq, ih]

theorem forall₂_exists_left {α β : Type} {R : α → β → Prop}
    {l₁ : List α} {l₂ : List β} (h : List.Forall₂ R l₁ l₂) {a : α} (ha : a ∈ l₁) :
    ∃ b ∈ l₂, R a b := by
  induction h with
  | nil => cases ha
  | @cons x y t₁ t₂ h1 h2 ih =>
    rcases List.mem_cons.mp ha with rfl | ha2
    · exact ⟨y, List.mem_cons_self y t₂, h1⟩
    · obtain ⟨b, hb, hr⟩ := ih ha2
      exact ⟨b, List.mem_cons_of_mem y hb, hr⟩

theorem forall₂_exists_right {α β : Type} {R : α → β → Prop}
    {l₁ : List α} {l₂ : List β} (h : List.Forall₂ R l₁ l₂) {b : β} (hb : b ∈ l₂) :
    ∃ a ∈ l₁, R a b := by
  induction h with
  | nil => cases hb
  | @cons x y t₁ t₂ h1 h2 ih =>
    rcases List.mem_cons.mp hb with rfl | hb2
    · exact ⟨x, List.mem_cons_self x t₁, h1⟩
    · obtain ⟨a, ha, hr⟩ := ih hb2
      exact ⟨a, List.mem_cons_of_mem x ha, hr⟩

theorem foldl_minD_mem (l : List Ymd) (a : Ymd) :
    l.foldl (fun x b => if toOrdinal b < toOrdinal x then b else x) a ∈ a :: l := by
  induction l generalizing a with
  | nil => exact List.mem_singleton.mpr rfl
  | cons b bs ih =>
    simp only [List.foldl_cons]
    by_cases hb : toOrdinal b < toOrdinal a
    · rw [if_pos hb]
      rcases List.mem_cons.mp (ih b) with h | h
      · rw [h]; exact List.mem_cons_of_mem a (List.mem_cons_self b bs)
      · exact List.mem_cons_of_mem a (List.mem_cons_of_mem b h)
    · rw [if_neg hb]
      rcases List.mem_cons.mp (ih a) with h | h
      · rw [h]; exact List.mem_cons_self a (b :: bs)
      · exact List.mem_cons_of_mem a (List.mem_cons_of_mem b h)

theorem foldl_minD_le (l : List Ymd) (a : Ymd) :
    ∀ d ∈ a :: l,
      toOrdinal (l.foldl (fun x b => if toOrdinal b < toOrdinal x then b else x) a) ≤
        toOrdinal d := by
  induction l generalizing a with
  | nil =>
    intro d hd
    rw [List.mem_singleton.mp hd]
    exact le_refl _
  | cons b bs ih =>
    intro d hd
    simp only [List.foldl_cons]
    have hstep : toOrdinal (if toOrdinal b < toOrdinal a then b else a) ≤ toOrdinal a ∧
        toOrdinal (if toOrdinal b < toOrdinal a then b else a) ≤ toOrdinal b := by
      by_cases hb : toOrdinal b < toOrdinal a <;> simp [hb] <;> omega
    have hres := ih (if toOrdinal b < toOrdinal a then b else a)
    have hhead := hres _ (List.mem_cons_self _ bs)
    rcases List.mem_cons.mp hd with rfl | hd2
    · exact le_trans hhead hstep.1
    · rcases List.mem_cons.mp hd2 with rfl | hd3
      · exact le_trans hhead hstep.2
      · exact hres d (List.mem_cons_of_mem _ hd3)

theorem foldl_maxD_mem (l : List Ymd) (a : Ymd) :
    l.foldl (fun x b => if toOrdinal x < toOrdinal b then b else x) a ∈ a :: l := by
  induction l generalizing a with
  | nil => exact List.mem_singleton.mpr rfl
  | cons b bs ih =>
    simp only [List.foldl_cons]
    by_cases hb : toOrdinal a < toOrdinal b
    · rw [if_pos hb]
      rcases List.mem_cons.mp (ih b) with h | h
      · rw [h]; exact List.mem_cons_of_mem a (List.mem_cons_self b bs)
      · exact List.mem_cons_of_mem a (List.mem_cons_of_mem b h)
    · rw [if_neg hb]
      rcases List.mem_cons.mp (ih a) with h | h
      · rw [h]; exact List.mem_cons_self a (b :: bs)
      · exact List.mem_cons_of_mem a (List.mem_cons_of_mem b h)

theorem foldl_maxD_ge (l : List Ymd) (a : Ymd) :
    ∀ d ∈ a :: l,
      toOrdinal d ≤
        toOrdinal (l.foldl (fun x b => if toOrdinal x < toOrdinal b then b else x) a) := by
  induction l generalizing a with
  | nil =>
    intro d hd
    rw [List.mem_singleton.mp hd]
    exact le_refl _
  | cons b bs ih =>
    intro d hd
    simp only [List.foldl_cons]
    have hstep : toOrdinal a ≤ toOrdinal (if toOrdinal a < toOrdinal b then b else a) ∧
        toOrdinal b ≤ toOrdinal (if toOrdinal a < toOrdinal b then b else a) := by
      by_cases hb : toOrdinal a < toOrdinal b <;> simp [hb] <;> omega
    have hres := ih (if toOrdinal a < toOrdinal b then b else a)
    have hhead := hres _ (List.mem_cons_self _ bs)
    rcases List.mem_cons.mp hd with rfl | hd2
    · exact le_trans hstep.1 hhead
    · rcases List.mem_cons.mp hd2 with rfl | hd3
      · exact le_trans hstep.2 hhead
      · exact hres d (List.mem_cons_of_mem _ hd3)

theorem minDate_mem {l : List Ymd} (h : l ≠ []) : minDate l ∈ l := by
  cases l with
  | nil => exact absurd rfl h
  | cons d rest => exact foldl_minD_mem rest d

theorem minDate_le {l : List Ymd} : ∀ d ∈ l, toOrdinal (minDate l) ≤ toOrdinal d := by
  cases l with
  | nil => intro d hd; cases hd
  | cons x rest => exact fun d hd => foldl_minD_le rest x d hd

theorem maxDate_mem {l : List Ymd} (h : l ≠ []) : maxDate l ∈ l := by
  cases l with
  | nil => exact absurd rfl h
  | cons d rest => exact foldl_maxD_mem rest d

theorem maxDate_ge {l : List Ymd} : ∀ d ∈ l, toOrdinal d ≤ toOrdinal (maxDate l) := by
  cases l with
  | nil => intro d hd; cases hd
  | cons x rest => exact fun d hd => foldl_maxD_ge rest x d hd

theorem aggregate_map_key (cs : List ClassifiedRecord) :
    (aggregate cs).map (fun s => (s.holiday_week, s.year)) =
      ((cs.filter (fun c => c.holiday_week.isSome)).map keyOf).dedup := by
  simp only [aggregate, List.map_map]
  have hfun : ((fun s : HolidaySummary => (s.holiday_week, s.year)) ∘
      (fun k : String × ℤ =>
        ({ holiday_week := k.1
           year := k.2
           avg_passengers := ((((cs.filter (fun c => c.holiday_week.isSome)).filter
               (fun c => decide (keyOf c = k))).map (fun c => (c.passengers : ℚ))).sum) /
             ((((cs.filter (fun c => c.holiday_week.isSome)).filter
               (fun c => decide (keyOf c = k))).length : ℚ))
           total_passengers := (((cs.filter (fun c => c.holiday_week.isSome)).filter
               (fun c => decide (keyOf c = k))).map (fun c => c.passengers)).sum
           day_count := ((cs.filter (fun c => c.holiday_week.isSome)).filter
               (fun c => decide (keyOf c = k))).length
           week_start := minDate (((cs.filter (fun c => c.holiday_week.isSome)).filter
               (fun c => decide (keyOf c = k))).map (fun c => c.date))
           week_end := maxDate (((cs.filter (fun c => c.holiday_week.isSome)).filter
               (fun c => decide (keyOf c = k))).map (fun c => c.date)) } : HolidaySummary))) =
      id := by
    funext k
    rfl
  rw [hfun, List.map_id]

theorem aggregate_mem_fields (cs : List ClassifiedRecord) (s : HolidaySummary)
    (hs : s ∈ aggregate cs) :
    ((cs.filter (fun c => c.holiday_week.isSome)).filter
        (fun c => decide (keyOf c = (s.holiday_week, s.year)))) ≠ [] ∧
    s.day_count = ((cs.filter (fun c => c.holiday_week.isSome)).filter
        (fun c => decide (keyOf c = (s.holiday_week, s.year)))).length ∧
    s.total_passengers = (((cs.filter (fun c => c.holiday_week.isSome)).filter
        (fun c => decide (keyOf c = (s.holiday_week, s.year)))).map
          (fun c => c.passengers)).sum ∧
    s.avg_passengers = ((((cs.filter (fun c => c.holiday_week.isSome)).filter
        (fun c => decide (keyOf c = (s.holiday_week, s.year)))).map
          (fun c => (c.passengers : ℚ))).sum) /
        ((((cs.filter (fun c => c.holiday_week.isSome)).filter
        (fun c => decide (keyOf c = (s.holiday_week, s.year)))).length : ℚ)) ∧
    s.week_start = minDate (((cs.filter (fun c => c.holiday_week.isSome)).filter
        (fun c => decide (keyOf c = (s.holiday_week, s.year)))).map (fun c => c.date)) ∧
    s.week_end = maxDate (((cs.filter (fun c => c.holiday_week.isSome)).filter
        (fun c => decide (keyOf c = (s.holiday_week, s.year)))).map (fun c => c.date)) := by
  simp only [aggregate, List.mem_map] at hs
  obtain ⟨k, hk, hrow⟩ := hs
  rw [List.mem_dedup, List.mem_map] at hk
  obtain ⟨c, hc, hkc⟩ := hk
  have hkey : (s.holiday_week, s.year) = k := by rw [← hrow]
  subst hrow
  refine ⟨?_, rfl, rfl, rfl, rfl, rfl⟩
  have hcg : c ∈ (cs.filter (fun c => c.holiday_week.isSome)).filter
      (fun c => decide (keyOf c = k)) := by
    rw [List.mem_filter]
    exact ⟨hc, by rw [hkc]; simp⟩
  exact List.ne_nil_of_mem hcg

/-- C8: `process_data` discards records with an absent holiday-week name,
groups the rest by (holiday name, year) and emits exactly one summary row
per non-empty group — keys are distinct and are exactly the realized
(name, year) pairs — whose fields are the group's record count, passenger
sum, arithmetic mean (equal to sum divided by count), and minimum and
maximum date. -/
theorem process_data_spec (defs : List HolidayDefinition)
    (records : List DailyRecord) (result : List HolidaySummary)
    (h : process_data defs records = .ok result) :
    (result.map (fun s => (s.holiday_week, s.year))).Nodup ∧
    (∀ nm yr, ((nm, yr) ∈ result.map (fun s => (s.holiday_week, s.year))) ↔
      ∃ r ∈ records, r.year = yr ∧
        assign_holiday_week defs r.date = .ok (some nm)) ∧
    (∀ s ∈ result,
      0 < s.day_count ∧
      s.day_count = (recordsGroup defs records s.holiday_week s.year).length ∧
      s.total_passengers = ((recordsGroup defs records s.holiday_week s.year).map
        (fun r => r.passengers)).sum ∧
      s.avg_passengers = (s.total_passengers : ℚ) / (s.day_count : ℚ) ∧
      s.week_start ∈ (recordsGroup defs records s.holiday_week s.year).map
        (fun r => r.date) ∧
      (∀ d ∈ (recordsGroup defs records s.holiday_week s.year).map (fun r => r.date),
        toOrdinal s.week_start ≤ toOrdinal d) ∧
      s.week_end ∈ (recordsGroup defs records s.holiday_week s.year).map
        (fun r => r.date) ∧
      (∀ d ∈ (recordsGroup defs records s.holiday_week s.year).map (fun r => r.date),
        toOrdinal d ≤ toOrdinal s.week_end)) := by
  revert h
  unfold process_data
  cases hca : classifyAll defs records with
  | error e => intro h; exact absurd h (by simp)
  | ok cs =>
    intro h
    injection h with h2
    subst h2
    have hfa := classifyAll_forall₂ defs records cs hca
    refine ⟨?_, ?_, ?_⟩
    · rw [aggregate_map_key]
      exact List.nodup_dedup _
    · intro nm yr
      rw [aggregate_map_key, List.mem_dedup, List.mem_map]
      constructor
      · rintro ⟨c, hc, hkc⟩
        rw [List.mem_filter] at hc
        obtain ⟨hcs2, hsome⟩ := hc
        obtain ⟨r, hr, hm⟩ := forall₂_exists_right hfa hcs2
        obtain ⟨v, hv⟩ := Option.isSome_iff_exists.mp hsome
        have hv2 : v = nm := by
          rw [keyOf, hv] at hkc
          simpa using congrArg Prod.fst hkc
        have hyr : c.year = yr := by
          simpa using congrArg Prod.snd hkc
        refine ⟨r, hr, by rw [← hm.2.2.1, hyr], ?_⟩
        rw [hm.2.2.2, hv, hv2]
      · rintro ⟨r, hr, hyr, hassign⟩
        obtain ⟨c, hc, hm⟩ := forall₂_exists_left hfa hr
        have hcw : c.holiday_week = some nm := by
          have h3 := hm.2.2.2
          rw [hassign] at h3
          injection h3 with h4
          exact h4.symm
        refine ⟨c, List.mem_filter.mpr ⟨hc, by rw [hcw]; rfl⟩, ?_⟩
        rw [keyOf, hcw, hm.2.2.1, hyr]
        rfl
    · intro s hs
      have hagg := aggregate_mem_fields cs s hs
      rw [List.filter_filter] at hagg
      have hpred : ∀ (r : DailyRecord) (c : ClassifiedRecord),
          classifiedMatches defs r c →
          (decide (assign_holiday_week defs r.date = .ok (some s.holiday_week) ∧
            r.year = s.year) : Bool) =
          (decide (keyOf c = (s.holiday_week, s.year)) && c.holiday_week.isSome) := by
        intro r c hm
        obtain ⟨hd, hp, hy, ha⟩ := hm
        cases hw : c.holiday_week with
        | none =>
          have ha2 : assign_holiday_week defs r.date = .ok none := by rw [ha, hw]
          simp [ha2, hw]
        | some v =>
          have ha2 : assign_holiday_week defs r.date = .ok (some v) := by rw [ha, hw]
          simp [ha2, hw, keyOf, hy, Prod.ext_iff, decide_eq_decide]
      have hpass := forall₂_filter_map
        (fun r : DailyRecord =>
          decide (assign_holiday_week defs r.date = .ok (some s.holiday_week) ∧
            r.year = s.year))
        (fun c : ClassifiedRecord =>
          decide (keyOf c = (s.holiday_week, s.year)) && c.holiday_week.isSome)
        (fun r : DailyRecord => r.passengers) (fun c : ClassifiedRecord => c.passengers)
        hpred (fun r c hm => hm.2.1.symm) hfa
      have hdates := forall₂_filter_map
        (fun r : DailyRecord =>
          decide (assign_holiday_week defs r.date = .ok (some s.holiday_week) ∧
            r.year = s.year))
        (fun c : ClassifiedRecord =>
          decide (keyOf c = (s.holiday_week, s.year)) && c.holiday_week.isSome)
        (fun r : DailyRecord => r.date) (fun c : ClassifiedRecord => c.date)
        hpred (fun r c hm => hm.1.symm) hfa
      have hlen : (recordsGroup defs records s.holiday_week s.year).length =
          (cs.filter (fun c =>
            decide (keyOf c = (s.holiday_week, s.year)) && c.holiday_week.isSome)).length := by
        rw [← List.length_map _ (fun r : DailyRecord => r.passengers),
          ← List.length_map _ (fun c : ClassifiedRecord => c.passengers)]
        rw [recordsGroup, hpass]
      obtain ⟨hne, hdc, htot, havg, hws, hwe⟩ := hagg
      have hlenpos : 0 < (cs.filter (fun c =>
          decide (keyOf c = (s.holiday_week, s.year)) && c.holiday_week.isSome)).length :=
        List.length_pos.mpr hne
      refine ⟨?_, ?_, ?_, ?_, ?_, ?_, ?_, ?_⟩
      · rw [hdc]; exact hlenpos
      · rw [hdc, hlen]
      · rw [htot, recordsGroup, hpass]
      · rw [havg, htot, hdc]
        push_cast [List.map_map]
        rfl
      · rw [hws, recordsGroup, ← hdates]
        apply minDate_mem
        intro hnil
        rw [hdates] at hnil
        rw [List.map_eq_nil_iff] at hnil
        exact hne hnil
      · intro d hd
        rw [recordsGroup] at hd
        rw [hdates] at hd
        rw [hws]
        exact minDate_le d hd
      · rw [hwe, recordsGroup, ← hdates]
        apply maxDate_mem
        intro hnil
        rw [hdates] at hnil
        rw [List.map_eq_nil_iff] at hnil
        exact hne hnil
      · intro d hd
        rw [recordsGroup] at hd
        rw [hdates] at hd
        rw [hwe]
        exact maxDate_ge d hd

/-- C8 witness: the spec's end-to-end Thanksgiving 2024 scenario — three
records, count 3, sum 7800000, mean 2600000. -/
theorem process_data_spec_witness :
    process_data [⟨"Thanksgiving", .relative "fourth_thursday_november", 0, 10, false⟩]
        [⟨⟨2024, 11, 27⟩, 2100000, 2024⟩, ⟨⟨2024, 11, 28⟩, 2950000, 2024⟩,
         ⟨⟨2024, 11, 29⟩, 2750000, 2024⟩] =
      .ok [⟨"Thanksgiving", 2024, 2600000, 7800000, 3, ⟨2024, 11, 27⟩, ⟨2024, 11, 29⟩⟩] ∧
    ([(⟨"Thanksgiving", 2024, 2600000, 7800000, 3, ⟨2024, 11, 27⟩,
        ⟨2024, 11, 29⟩⟩ : HolidaySummary)].map (fun s => (s.holiday_week, s.year))).Nodup := by
  have hp : process_data [⟨"Thanksgiving", .relative "fourth_thursday_november", 0, 10, false⟩]
      [⟨⟨2024, 11, 27⟩, 2100000, 2024⟩, ⟨⟨2024, 11, 28⟩, 2950000, 2024⟩,
       ⟨⟨2024, 11, 29⟩, 2750000, 2024⟩] =
      .ok [⟨"Thanksgiving", 2024, 2600000, 7800000, 3, ⟨2024, 11, 27⟩, ⟨2024, 11, 29⟩⟩] := by
    have h1 : classifyAll [⟨"Thanksgiving", .relative "fourth_thursday_november", 0, 10, false⟩]
        [⟨⟨2024, 11, 27⟩, 2100000, 2024⟩, ⟨⟨2024, 11, 28⟩, 2950000, 2024⟩,
         ⟨⟨2024, 11, 29⟩, 2750000, 2024⟩] =
        .ok [⟨⟨2024, 11, 27⟩, 2100000, 2024, some "Thanksgiving"⟩,
             ⟨⟨2024, 11, 28⟩, 2950000, 2024, some "Thanksgiving"⟩,
             ⟨⟨2024, 11, 29⟩, 2750000, 2024, some "Thanksgiving"⟩] := by decide
    simp only [process_data, h1]
    norm_num [aggregate, keyOf, minDate, maxDate, toOrdinal, List.filter, List.dedup,
      List.pwFilter, List.map, List.foldl, HolidaySummary.mk.injEq]
  exact ⟨hp, (process_data_spec _ _ _ hp).1⟩

end TSA
